import Mathlib

/-!
Verification of the thumbnail-generation core of `private-video-hub-desktop`.

The embedding models `src/services/ThumbnailService.ts` (the variant that
supports ffmpeg-based extraction, i.e. the class whose `generate` accepts an
optional `filePath` hint) together with `src/electron/ffmpeg.ts`.

The service is single-threaded cooperative-concurrency JavaScript.  We model
it as a deterministic transition system over an explicit state:
  * `queue`        — the FIFO list of admitted, not yet dispatched tasks;
  * `activeCount`  — the service's counter of in-flight extraction jobs;
  * `running`      — the multiset (list) of dispatched, unfinished tasks
                     (implicit in the source: the suspended `processQueue`
                     activations awaiting `createThumbnail`);
  * `cache`        — the `Map<string, {dataUrl, duration}>`, modelled as an
                     insertion-ordered association list (JS `Map` iterates
                     in insertion order; `set` on an existing key updates in
                     place, `delete` removes the entry);
  * `pending`      — the `Set<string>` of keys with work admitted or in flight.

External operations are `generate` calls, `clearCache` calls, and the
completion of a running job (with the outcome of the awaited
`createThumbnail` promise).  The `requestAnimationFrame(() => processQueue())`
re-dispatch that follows a completion is folded into the completion step;
the dispatched portion of `processQueue` runs synchronously inside
`generate` in the source, as modelled.

Media durations are rationals (JS numbers; none of the verified claims
depends on float rounding, and `NaN`/`Infinity` cases are modelled by
explicit finiteness flags where the source tests them); event/timer times
are integers in milliseconds, matching the `setTimeout` granularity of the
source.
-/

set_option maxRecDepth 4000

namespace ThumbnailHub

/-- `MAX_CONCURRENT_THUMBNAILS` from `src/constants` (`unnamed/part_004`). -/
def MAX_CONCURRENT_THUMBNAILS : Nat := 3

/-- `private readonly MAX_CACHE_SIZE = 500` (ThumbnailService). -/
def MAX_CACHE_SIZE : Nat := 500

/-- `private readonly TARGET_HEIGHT = 360` (ThumbnailService). -/
def TARGET_HEIGHT : Nat := 360

/-- A computed thumbnail: `{ dataUrl: string; duration: number }`. -/
structure ThumbResult where
  dataUrl : String
  duration : ℚ
deriving DecidableEq

/-- An admitted request: the `{url, fileKey, filePath?, callback}` queue entry
(the callback is identified by its `fileKey`; `filePath` does not influence
the scheduler and is omitted from scheduler state). -/
structure Task where
  url : String
  fileKey : String
deriving DecidableEq

/-- The `Map<string, {dataUrl, duration}>` cache, insertion-ordered. -/
abbrev Cache := List (String × ThumbResult)

/-- JS `Map.get`. -/
def mapGet : Cache → String → Option ThumbResult
  | [], _ => none
  | e :: rest, k => if e.1 = k then some e.2 else mapGet rest k

/-- JS `Map.set`: update in place if the key is present, else append. -/
def mapSet : Cache → String → ThumbResult → Cache
  | [], k, v => [(k, v)]
  | e :: rest, k, v => if e.1 = k then (k, v) :: rest else e :: mapSet rest k v

/-- JS `Map.delete`: remove the (unique) entry with the given key. -/
def mapDelete : Cache → String → Cache
  | [], _ => []
  | e :: rest, k => if e.1 = k then rest else e :: mapDelete rest k

/-- JS `Set.add` (insertion-ordered, no duplicates). -/
def setAdd (s : List String) (k : String) : List String :=
  if k ∈ s then s else s ++ [k]

/-- JS `Set.delete`. -/
def setDelete : List String → String → List String
  | [], _ => []
  | e :: rest, k => if e = k then rest else e :: setDelete rest k

/-- The eviction step of the enqueued callback (ThumbnailService.generate):
`const firstKey = this.cache.keys().next().value; if (firstKey) this.cache.delete(firstKey);`.
`keys().next().value` is the oldest-inserted key, or `undefined` on an empty
map (the `none` case); the `if (firstKey)` guard also skips the delete when
that key is the empty string, which is falsy in JS. -/
def evictOldest (c : Cache) : Cache :=
  match c.head? with
  | none => c
  | some (k0, _) => if k0 = "" then c else mapDelete c k0

/-- The cache-update performed by the callback wrapper that `generate` pushes
onto the queue: evict when `size >= MAX_CACHE_SIZE`, then `set`. -/
def cacheWrite (c : Cache) (k : String) (v : ThumbResult) : Cache :=
  let c1 := if MAX_CACHE_SIZE ≤ c.length then evictOldest c else c
  mapSet c1 k v

/-- The full scheduler state of a `ThumbnailService` instance. -/
structure SvcState where
  queue : List Task
  activeCount : Nat
  running : List Task
  cache : Cache
  pending : List String
deriving DecidableEq

/-- A freshly constructed service. -/
def initState : SvcState := ⟨[], 0, [], [], []⟩

/-- An observable delivery to a caller: `callback(dataUrl, duration)`. -/
structure Event where
  fileKey : String
  dataUrl : String
  duration : ℚ
deriving DecidableEq

/-- One dispatch pass of `processQueue` up to its suspension point: bail out
when at the concurrency limit or the queue is empty, otherwise shift the
head task, increment `activeCount` and start the job (the task becomes
`running`; the remainder of `processQueue` resumes at job completion). -/
def processQueue (s : SvcState) : SvcState :=
  if MAX_CONCURRENT_THUMBNAILS ≤ s.activeCount then s
  else
    match s.queue with
    | [] => s
    | t :: rest =>
      { s with queue := rest, activeCount := s.activeCount + 1, running := s.running ++ [t] }

/-- The state mutation and delivery performed by the wrapped callback
`(data, dur) => { evict-if-full; cache.set(fileKey, …); pendingKeys.delete(fileKey); callback(data, dur) }`. -/
def deliverResult (s : SvcState) (fileKey : String) (data : ThumbResult) :
    SvcState × List Event :=
  ({ s with cache := cacheWrite s.cache fileKey data,
            pending := setDelete s.pending fileKey },
   [⟨fileKey, data.dataUrl, data.duration⟩])

/-- `ThumbnailService.generate(url, fileKey, callback, filePath?)`:
cache hit → deliver cached result and stop; pending key → silently drop;
otherwise mark pending, enqueue, and run one `processQueue` pass. -/
def generate (s : SvcState) (url fileKey : String) : SvcState × List Event :=
  match mapGet s.cache fileKey with
  | some cached => (s, [⟨fileKey, cached.dataUrl, cached.duration⟩])
  | none =>
    if fileKey ∈ s.pending then (s, [])
    else
      let s1 := { s with pending := setAdd s.pending fileKey,
                         queue := s.queue ++ [⟨url, fileKey⟩] }
      (processQueue s1, [])

/-- Outcome of the awaited `createThumbnail(task.url, task.filePath)` promise:
it resolves with a result or rejects (timeout, decode error, …). -/
inductive JobOutcome where
  | success (r : ThumbResult)
  | failure
deriving DecidableEq

/-- Resumption of `processQueue` when the awaited extraction for the `i`-th
running task settles: on resolution, `task.callback(result.dataUrl,
result.duration)`; on rejection, the `catch` runs `task.callback('', 0)`.
The `finally` then decrements `activeCount` and re-dispatches (the
`requestAnimationFrame` pump, folded into this step). -/
def completeJob (s : SvcState) (i : Nat) (outcome : JobOutcome) :
    SvcState × List Event :=
  match s.running.get? i with
  | none => (s, [])
  | some t =>
    let data : ThumbResult :=
      match outcome with
      | .success r => r
      | .failure => ⟨"", 0⟩
    let s1 := { s with running := s.running.eraseIdx i }
    let de := deliverResult s1 t.fileKey data
    let s3 := { de.1 with activeCount := de.1.activeCount - 1 }
    (processQueue s3, de.2)

/-- `ThumbnailService.clearCache()`: clear cache, pending set, and queue;
in-flight jobs (`running`, `activeCount`) are untouched by the source. -/
def clearCache (s : SvcState) : SvcState :=
  { s with cache := [], pending := [], queue := [] }

/-- An externally triggered step of the service. -/
inductive Op where
  | gen (url fileKey : String)
  | complete (i : Nat) (outcome : JobOutcome)
  | clear
deriving DecidableEq

/-- Apply one step. -/
def applyOp (s : SvcState) : Op → SvcState × List Event
  | .gen url k => generate s url k
  | .complete i oc => completeJob s i oc
  | .clear => (clearCache s, [])

/-- Run a sequence of steps, discarding deliveries. -/
def runOps (s : SvcState) : List Op → SvcState
  | [] => s
  | op :: rest => runOps (applyOp s op).1 rest

/-- Run a sequence of steps, collecting deliveries. -/
def runTrace (s : SvcState) : List Op → SvcState × List Event
  | [] => (s, [])
  | op :: rest =>
    let se := applyOp s op
    let rec' := runTrace se.1 rest
    (rec'.1, se.2 ++ rec'.2)

/-- Number of admitted-or-running extraction jobs for a key. -/
def jobsFor (s : SvcState) (k : String) : Nat :=
  s.queue.countP (fun t => t.fileKey = k) + s.running.countP (fun t => t.fileKey = k)

example : (generate initState "u" "k").1.queue = [] := by decide
example : (generate initState "u" "k").1.running = [⟨"u", "k"⟩] := by decide
example : (generate initState "u" "k").1.activeCount = 1 := by decide
example :
    (runOps initState [Op.gen "u" "k", Op.complete 0 JobOutcome.failure]).cache =
      [("k", ⟨"", 0⟩)] := by decide

/-! ### Association-list and set lemmas -/

theorem mapGet_mapSet_self (c : Cache) (k : String) (v : ThumbResult) :
    mapGet (mapSet c k v) k = some v := by
  induction c with
  | nil => simp [mapSet, mapGet]
  | cons e rest ih =>
    by_cases h : e.1 = k
    · simp [mapSet, h, mapGet]
    · simp [mapSet, h, mapGet, ih]

theorem mapSet_length_le (c : Cache) (k : String) (v : ThumbResult) :
    (mapSet c k v).length ≤ c.length + 1 := by
  induction c with
  | nil => simp [mapSet]
  | cons e rest ih =>
    by_cases h : e.1 = k
    · simp [mapSet, h]
    · simp only [mapSet, if_neg h, List.length_cons]
      omega

theorem mapSet_of_get_none (c : Cache) (k : String) (v : ThumbResult)
    (h : mapGet c k = none) : mapSet c k v = c ++ [(k, v)] := by
  induction c with
  | nil => simp [mapSet]
  | cons e rest ih =>
    by_cases he : e.1 = k
    · simp [mapGet, he] at h
    · simp only [mapGet, if_neg he] at h
      simp [mapSet, he, ih h]

theorem setDelete_subset (s : List String) (k : String) : setDelete s k ⊆ s := by
  induction s with
  | nil =>
    intro x hx
    simp [setDelete] at hx
  | cons e rest ih =>
    intro x hx
    by_cases h : e = k
    · simp only [setDelete, if_pos h] at hx
      exact List.mem_cons_of_mem _ hx
    · simp only [setDelete, if_neg h, List.mem_cons] at hx
      rcases hx with rfl | hx
      · exact List.mem_cons_self _ _
      · exact List.mem_cons_of_mem _ (ih hx)

theorem not_mem_setDelete_of_count_le_one (s : List String) (k : String)
    (h : s.count k ≤ 1) : k ∉ setDelete s k := by
  induction s with
  | nil => simp [setDelete]
  | cons e rest ih =>
    by_cases he : e = k
    · subst he
      simp only [setDelete, if_pos rfl]
      intro hk
      have h1 : 0 < rest.count e := List.count_pos_iff.mpr hk
      have h2 : (e :: rest).count e = rest.count e + 1 := List.count_cons_self _ _
      omega
    · simp only [setDelete, if_neg he, List.mem_cons]
      rintro (rfl | hk)
      · exact he rfl
      · have hc : rest.count k ≤ 1 := by
          have := List.count_cons k e rest
          omega
        exact ih hc hk

theorem mem_setAdd_self (s : List String) (k : String) : k ∈ setAdd s k := by
  unfold setAdd
  split
  · assumption
  · simp

theorem mem_setAdd_of_mem (s : List String) (k k' : String) (h : k ∈ s) :
    k ∈ setAdd s k' := by
  unfold setAdd
  split
  · exact h
  · simp [h]

/-! ### Scheduler lemmas -/

theorem processQueue_cache (s : SvcState) : (processQueue s).cache = s.cache := by
  unfold processQueue
  split
  · rfl
  · split <;> rfl

theorem processQueue_pending (s : SvcState) : (processQueue s).pending = s.pending := by
  unfold processQueue
  split
  · rfl
  · split <;> rfl

theorem processQueue_active_le (s : SvcState)
    (h : s.activeCount ≤ MAX_CONCURRENT_THUMBNAILS) :
    (processQueue s).activeCount ≤ MAX_CONCURRENT_THUMBNAILS := by
  unfold processQueue
  split
  · exact h
  · rename_i hlt
    split
    · exact h
    · show s.activeCount + 1 ≤ MAX_CONCURRENT_THUMBNAILS
      unfold MAX_CONCURRENT_THUMBNAILS at hlt ⊢
      omega

theorem jobsFor_processQueue (s : SvcState) (k : String) :
    jobsFor (processQueue s) k = jobsFor s k := by
  unfold processQueue
  split
  · rfl
  · split
    · rfl
    · rename_i t rest hq
      simp only [jobsFor, hq, List.countP_cons, List.countP_append, List.countP_nil]
      omega

theorem jobsFor_enqueue (s : SvcState) (url k' k : String) :
    jobsFor { s with pending := setAdd s.pending k', queue := s.queue ++ [⟨url, k'⟩] } k =
      jobsFor s k + (if k' = k then 1 else 0) := by
  simp only [jobsFor, List.countP_append, List.countP_cons, List.countP_nil]
  by_cases hk : k' = k
  · simp [hk]
    omega
  · simp [hk]

/-- Dedup invariant for a key: at most one admitted-or-running job, and a job
implies membership in the pending set. -/
def dedupInv (s : SvcState) (k : String) : Prop :=
  jobsFor s k ≤ 1 ∧ (1 ≤ jobsFor s k → k ∈ s.pending)

theorem dedupInv_generate (s : SvcState) (k url k' : String) (h : dedupInv s k) :
    dedupInv (generate s url k').1 k := by
  unfold generate
  split
  · exact h
  · split
    · exact h
    · rename_i hcache hpend
      obtain ⟨h1, h2⟩ := h
      dsimp only
      refine ⟨?_, ?_⟩
      · rw [jobsFor_processQueue, jobsFor_enqueue]
        by_cases hk : k' = k
        · subst hk
          have h0 : jobsFor s k' = 0 := by
            by_contra hne
            exact hpend (h2 (by omega))
          simp [h0]
        · simp only [if_neg hk, Nat.add_zero]
          exact h1
      · intro hj
        rw [processQueue_pending]
        show k ∈ setAdd s.pending k'
        by_cases hk : k' = k
        · subst hk
          exact mem_setAdd_self _ _
        · rw [jobsFor_processQueue, jobsFor_enqueue] at hj
          simp only [if_neg hk, Nat.add_zero] at hj
          exact mem_setAdd_of_mem _ _ _ (h2 hj)

/-- Whether a step is a `generate` call. -/
def isGen : Op → Bool
  | .gen _ _ => true
  | _ => false

theorem dedupInv_runOps (s : SvcState) (k : String) (ops : List Op)
    (h : dedupInv s k) (hops : ∀ op ∈ ops, isGen op = true) :
    dedupInv (runOps s ops) k := by
  induction ops generalizing s with
  | nil => exact h
  | cons op rest ih =>
    have hop : isGen op = true := hops op (List.mem_cons_self _ _)
    cases op with
    | gen url k' =>
      exact ih _ (dedupInv_generate s k url k' h)
        (fun o ho => hops o (List.mem_cons_of_mem _ ho))
    | complete i oc => simp [isGen] at hop
    | clear => simp [isGen] at hop

theorem deliverResult_activeCount (s : SvcState) (k : String) (d : ThumbResult) :
    ((deliverResult s k d).1).activeCount = s.activeCount := rfl

theorem applyOp_active_le (s : SvcState) (op : Op)
    (h : s.activeCount ≤ MAX_CONCURRENT_THUMBNAILS) :
    ((applyOp s op).1).activeCount ≤ MAX_CONCURRENT_THUMBNAILS := by
  cases op with
  | gen url k =>
    show ((generate s url k).1).activeCount ≤ _
    unfold generate
    split
    · exact h
    · split
      · exact h
      · dsimp only
        exact processQueue_active_le _ h
  | complete i oc =>
    show ((completeJob s i oc).1).activeCount ≤ _
    unfold completeJob
    split
    · exact h
    · dsimp only
      refine processQueue_active_le _ ?_
      simp only [deliverResult_activeCount]
      unfold MAX_CONCURRENT_THUMBNAILS at h ⊢
      omega
  | clear => exact h

/-- The 10 distinct-key `generate` requests of the C1 scenario. -/
def c1Gens : List Op :=
  (List.range 10).map (fun i => Op.gen ("u" ++ Nat.repr i) ("k" ++ Nat.repr i))

/-- `j` successive completions of the oldest running job. -/
def c1Completes (j : Nat) : List Op :=
  List.replicate j (Op.complete 0 (JobOutcome.success ⟨"img", 5⟩))

/-- Claim C1: the number of concurrently executing extraction jobs never
exceeds `MAX_CONCURRENT_THUMBNAILS = 3` under any operation; submitting 10
distinct-key requests starts exactly 3 jobs immediately and leaves 7 queued,
and each completion starts exactly one queued job (`activeCount` stays 3 and
the queue shrinks by one per completion while the queue is non-empty), until
all 10 requests have resolved (10 callback deliveries). -/
theorem thumb_C1 :
    (∀ s op, s.activeCount ≤ MAX_CONCURRENT_THUMBNAILS →
        ((applyOp s op).1).activeCount ≤ MAX_CONCURRENT_THUMBNAILS) ∧
    ((runOps initState c1Gens).activeCount = 3 ∧
       (runOps initState c1Gens).queue.length = 7 ∧
       (runOps initState c1Gens).running.length = 3) ∧
    (∀ j ∈ List.range 11,
        (runOps initState (c1Gens ++ c1Completes j)).activeCount = min 3 (10 - j) ∧
        (runOps initState (c1Gens ++ c1Completes j)).queue.length = 7 - j ∧
        (runOps initState (c1Gens ++ c1Completes j)).cache.length = j) ∧
    (runTrace initState (c1Gens ++ c1Completes 10)).2.length = 10 :=
  ⟨applyOp_active_le, by decide, by decide, by decide⟩

theorem thumb_C1_witness :
    initState.activeCount ≤ MAX_CONCURRENT_THUMBNAILS ∧
    ((applyOp initState (Op.gen "u" "k")).1).activeCount ≤ MAX_CONCURRENT_THUMBNAILS ∧
    5 ∈ List.range 11 ∧
    (runOps initState (c1Gens ++ c1Completes 5)).activeCount = min 3 (10 - 5) :=
  ⟨by decide, thumb_C1.1 initState (Op.gen "u" "k") (by decide),
   by decide, (thumb_C1.2.2.1 5 (by decide)).1⟩

/-- Claim C2: dedup — a `generate` for a key that is pending (and not yet
cached) is a complete no-op: no state change, no enqueue, no callback; and
along any sequence of `generate` calls at most one extraction job exists per
key (stated as preservation of `dedupInv`, and outright from a fresh
service). -/
theorem thumb_C2 :
    (∀ s url k, mapGet s.cache k = none → k ∈ s.pending →
        generate s url k = (s, [])) ∧
    (∀ s k ops, dedupInv s k → (∀ op ∈ ops, isGen op = true) →
        dedupInv (runOps s ops) k) ∧
    (∀ k ops, (∀ op ∈ ops, isGen op = true) →
        jobsFor (runOps initState ops) k ≤ 1) := by
  refine ⟨?_, dedupInv_runOps, ?_⟩
  · intro s url k hc hp
    unfold generate
    rw [hc]
    simp [hp]
  · intro k ops hops
    refine (dedupInv_runOps initState k ops ⟨?_, ?_⟩ hops).1
    · simp [jobsFor, initState]
    · simp [jobsFor, initState]

theorem thumb_C2_witness :
    generate ⟨[⟨"u", "k"⟩], 0, [], [], ["k"]⟩ "u2" "k" =
      (⟨[⟨"u", "k"⟩], 0, [], [], ["k"]⟩, []) ∧
    jobsFor (runOps initState [Op.gen "u" "k", Op.gen "u" "k", Op.gen "u" "k"]) "k" ≤ 1 :=
  ⟨thumb_C2.1 _ "u2" "k" (by decide) (by decide),
   thumb_C2.2.2 "k" _ (by decide)⟩

/-- Claim C3: cache hit — `generate` on a cached key delivers exactly the
cached image and duration in a single callback, mutates no service state
(the state, hence cache, pending set, queue and `activeCount`, is returned
unchanged), and enqueues no task and starts no extraction job. -/
theorem thumb_C3 (s : SvcState) (url k : String) (r : ThumbResult)
    (h : mapGet s.cache k = some r) :
    generate s url k = (s, [⟨k, r.dataUrl, r.duration⟩]) := by
  unfold generate
  rw [h]

theorem thumb_C3_witness :
    generate ⟨[], 0, [], [("k", ⟨"d", 7⟩)], []⟩ "u" "k" =
      (⟨[], 0, [], [("k", ⟨"d", 7⟩)], []⟩, [⟨"k", "d", 7⟩]) :=
  thumb_C3 _ "u" "k" ⟨"d", 7⟩ (by decide)

/-! ### Cache bound (C4) -/

theorem mapDelete_sub (c : Cache) (k : String) : ∀ e ∈ mapDelete c k, e ∈ c := by
  induction c with
  | nil => simp [mapDelete]
  | cons x rest ih =>
    intro e he
    by_cases hx : x.1 = k
    · simp only [mapDelete, if_pos hx] at he
      exact List.mem_cons_of_mem _ he
    · simp only [mapDelete, if_neg hx, List.mem_cons] at he
      rcases he with rfl | he
      · exact List.mem_cons_self _ _
      · exact List.mem_cons_of_mem _ (ih e he)

theorem evictOldest_sub (c : Cache) : ∀ e ∈ evictOldest c, e ∈ c := by
  unfold evictOldest
  split
  · exact fun e he => he
  · split
    · exact fun e he => he
    · exact mapDelete_sub c _

theorem mapSet_sub (c : Cache) (k : String) (v : ThumbResult) :
    ∀ e ∈ mapSet c k v, e ∈ c ∨ e = (k, v) := by
  induction c with
  | nil =>
    intro e he
    simp [mapSet] at he
    exact Or.inr he
  | cons x rest ih =>
    intro e he
    by_cases hx : x.1 = k
    · simp only [mapSet, if_pos hx, List.mem_cons] at he
      rcases he with rfl | he
      · exact Or.inr rfl
      · exact Or.inl (List.mem_cons_of_mem _ he)
    · simp only [mapSet, if_neg hx, List.mem_cons] at he
      rcases he with rfl | he
      · exact Or.inl (List.mem_cons_self _ _)
      · rcases ih e he with h | h
        · exact Or.inl (List.mem_cons_of_mem _ h)
        · exact Or.inr h

theorem cacheWrite_keys (c : Cache) (k : String) (v : ThumbResult)
    (hkeys : ∀ e ∈ c, e.1 ≠ "") (hk : k ≠ "") :
    ∀ e ∈ cacheWrite c k v, e.1 ≠ "" := by
  unfold cacheWrite
  dsimp only
  intro e he
  rcases mapSet_sub _ k v e he with h | h
  · split at h
    · exact hkeys e (evictOldest_sub c e h)
    · exact hkeys e h
  · rw [h]
    exact hk

theorem cacheWrite_length_le (c : Cache) (k : String) (v : ThumbResult)
    (hlen : c.length ≤ MAX_CACHE_SIZE) (hkeys : ∀ e ∈ c, e.1 ≠ "") :
    (cacheWrite c k v).length ≤ MAX_CACHE_SIZE := by
  unfold cacheWrite
  dsimp only
  split
  · rename_i hfull
    cases c with
    | nil => simp [MAX_CACHE_SIZE] at hfull
    | cons e rest =>
      obtain ⟨k0, v0⟩ := e
      have he : k0 ≠ "" := hkeys (k0, v0) (List.mem_cons_self _ _)
      have hev : evictOldest ((k0, v0) :: rest) = rest := by
        simp [evictOldest, he, mapDelete]
      rw [hev]
      have h1 := mapSet_length_le rest k v
      simp only [List.length_cons] at hlen
      unfold MAX_CACHE_SIZE at *
      omega
  · rename_i hsmall
    have h1 := mapSet_length_le c k v
    unfold MAX_CACHE_SIZE at *
    omega

theorem cacheWrite_evicts (c : Cache) (k : String) (v : ThumbResult)
    (hlen : c.length = MAX_CACHE_SIZE) (hkeys : ∀ e ∈ c, e.1 ≠ "")
    (hfresh : mapGet c k = none) :
    cacheWrite c k v = c.tail ++ [(k, v)] ∧
      (cacheWrite c k v).length = MAX_CACHE_SIZE := by
  cases c with
  | nil => simp [MAX_CACHE_SIZE] at hlen
  | cons e rest =>
    obtain ⟨k0, v0⟩ := e
    have he : k0 ≠ "" := hkeys (k0, v0) (List.mem_cons_self _ _)
    have hev : evictOldest ((k0, v0) :: rest) = rest := by
      simp [evictOldest, he, mapDelete]
    have hrest : mapGet rest k = none := by
      by_cases h0 : k0 = k
      · simp [mapGet, h0] at hfresh
      · simpa [mapGet, h0] using hfresh
    have hw : cacheWrite ((k0, v0) :: rest) k v = rest ++ [(k, v)] := by
      unfold cacheWrite
      dsimp only
      rw [if_pos (le_of_eq hlen.symm), hev, mapSet_of_get_none rest k v hrest]
    refine ⟨by rw [hw]; rfl, ?_⟩
    rw [hw]
    simp only [List.length_append, List.length_singleton]
    simp only [List.length_cons] at hlen
    unfold MAX_CACHE_SIZE at *
    omega

/-- Keys reachable by cache writes are non-empty. -/
def keysOK (s : SvcState) : Prop :=
  (∀ e ∈ s.cache, e.1 ≠ "") ∧ (∀ t ∈ s.queue, t.fileKey ≠ "") ∧
    (∀ t ∈ s.running, t.fileKey ≠ "")

/-- The step does not inject the empty string as a file key. -/
def opKeyOK : Op → Prop
  | .gen _ k => k ≠ ""
  | _ => True

theorem keysOK_processQueue (s : SvcState) (h : keysOK s) : keysOK (processQueue s) := by
  unfold processQueue
  split
  · exact h
  · split
    · exact h
    · rename_i t rest hq
      obtain ⟨h1, h2, h3⟩ := h
      refine ⟨h1, ?_, ?_⟩
      · intro x hx
        exact h2 x (by rw [hq]; exact List.mem_cons_of_mem _ hx)
      · intro x hx
        rcases List.mem_append.mp hx with hx | hx
        · exact h3 x hx
        · simp only [List.mem_singleton] at hx
          subst hx
          exact h2 x (by rw [hq]; exact List.mem_cons_self _ _)

theorem applyOp_cache_bound (s : SvcState) (op : Op)
    (hk : keysOK s) (hop : opKeyOK op) (hlen : s.cache.length ≤ MAX_CACHE_SIZE) :
    ((applyOp s op).1).cache.length ≤ MAX_CACHE_SIZE ∧ keysOK (applyOp s op).1 := by
  obtain ⟨hc, hq, hr⟩ := hk
  cases op with
  | gen url k =>
    show ((generate s url k).1).cache.length ≤ _ ∧ keysOK (generate s url k).1
    unfold generate
    split
    · exact ⟨hlen, hc, hq, hr⟩
    · split
      · exact ⟨hlen, hc, hq, hr⟩
      · dsimp only
        rw [processQueue_cache]
        refine ⟨hlen, keysOK_processQueue _ ⟨hc, ?_, hr⟩⟩
        intro x hx
        rcases List.mem_append.mp hx with hx | hx
        · exact hq x hx
        · simp only [List.mem_singleton] at hx
          subst hx
          exact hop
  | complete i oc =>
    show ((completeJob s i oc).1).cache.length ≤ _ ∧ keysOK (completeJob s i oc).1
    unfold completeJob
    split
    · exact ⟨hlen, hc, hq, hr⟩
    · rename_i t hget
      dsimp only
      rw [processQueue_cache]
      have htk : t.fileKey ≠ "" := hr t (List.get?_mem hget)
      refine ⟨cacheWrite_length_le _ _ _ hlen hc, keysOK_processQueue _ ⟨?_, hq, ?_⟩⟩
      · exact cacheWrite_keys _ _ _ hc htk
      · intro x hx
        exact hr x ((List.eraseIdx_sublist _ i).subset hx)
  | clear =>
    show (clearCache s).cache.length ≤ _ ∧ keysOK (clearCache s)
    refine ⟨by simp [clearCache, MAX_CACHE_SIZE], ?_, ?_, hr⟩
    · intro e he
      simp [clearCache] at he
    · intro x hx
      simp [clearCache] at hx

/-- A reachable 500-entry cache whose oldest-inserted key is the empty
string (the service admits `""` as a file key through `generate`). -/
def fullCacheEmptyOldest : Cache :=
  ("", ⟨"a", 1⟩) :: (List.range 499).map (fun i => ("k" ++ Nat.repr i, ⟨"a", 1⟩))

/-- Counterexample to claim C4 as stated: with the oldest cache key being the
empty string, the `if (firstKey)` guard skips eviction (the empty string is
falsy in JS), so completing a job for a fresh key on a full 500-entry cache
leaves 501 entries — the bound and the evict-exactly-one behaviour both
fail. -/
theorem thumb_C4_cex :
    fullCacheEmptyOldest.length = MAX_CACHE_SIZE ∧
    ((completeJob ⟨[], 1, [⟨"u", "fresh"⟩], fullCacheEmptyOldest, ["fresh"]⟩ 0
        (JobOutcome.success ⟨"d", 2⟩)).1).cache.length = MAX_CACHE_SIZE + 1 := by
  constructor
  · decide
  · decide

/-- A full cache all of whose keys are non-empty. -/
def fullCacheGood : Cache :=
  (List.range 500).map (fun i => ("k" ++ Nat.repr i, ⟨"a", 1⟩))

/-- Claim C4 (amended): provided the empty string is never used as a file
key, the cache size never exceeds `MAX_CACHE_SIZE = 500` after any
operation; and a write for a new key to a full 500-entry cache (all keys
non-empty) evicts exactly the oldest-inserted entry before inserting,
leaving exactly 500 entries.  (As stated the claim fails: the `if
(firstKey)` eviction guard treats the empty-string key as falsy and skips
eviction, see the counterexample.) -/
theorem thumb_C4 :
    (∀ s op, keysOK s → opKeyOK op → s.cache.length ≤ MAX_CACHE_SIZE →
        ((applyOp s op).1).cache.length ≤ MAX_CACHE_SIZE ∧ keysOK (applyOp s op).1) ∧
    (∀ c k v, c.length = MAX_CACHE_SIZE → (∀ e ∈ c, e.1 ≠ "") → mapGet c k = none →
        cacheWrite c k v = c.tail ++ [(k, v)] ∧
          (cacheWrite c k v).length = MAX_CACHE_SIZE) :=
  ⟨applyOp_cache_bound, cacheWrite_evicts⟩

theorem thumb_C4_witness :
    (((applyOp ⟨[], 1, [⟨"u", "k1"⟩], [("k0", ⟨"a", 1⟩)], ["k1"]⟩
          (Op.complete 0 (JobOutcome.success ⟨"b", 2⟩))).1).cache.length ≤ MAX_CACHE_SIZE ∧
      keysOK (applyOp ⟨[], 1, [⟨"u", "k1"⟩], [("k0", ⟨"a", 1⟩)], ["k1"]⟩
          (Op.complete 0 (JobOutcome.success ⟨"b", 2⟩))).1) ∧
    (cacheWrite fullCacheGood "fresh" ⟨"b", 2⟩ = fullCacheGood.tail ++ [("fresh", ⟨"b", 2⟩)] ∧
      (cacheWrite fullCacheGood "fresh" ⟨"b", 2⟩).length = MAX_CACHE_SIZE) :=
  ⟨thumb_C4.1 _ _ (by refine ⟨?_, ?_, ?_⟩ <;> decide) (by trivial) (by decide),
   thumb_C4.2 fullCacheGood "fresh" ⟨"b", 2⟩ (by decide) (by decide) (by decide)⟩

/-! ### Failure completion (C5) and clear semantics (C7) -/

theorem processQueue_queue_sub (s : SvcState) :
    ∀ x ∈ (processQueue s).queue, x ∈ s.queue := by
  unfold processQueue
  split
  · exact fun x hx => hx
  · split
    · exact fun x hx => hx
    · rename_i t rest hq
      intro x hx
      rw [hq]
      exact List.mem_cons_of_mem _ hx

theorem processQueue_running_sub (s : SvcState) :
    ∀ x ∈ (processQueue s).running, x ∈ s.running ∨ x ∈ s.queue := by
  unfold processQueue
  split
  · exact fun x hx => Or.inl hx
  · split
    · exact fun x hx => Or.inl hx
    · rename_i t rest hq
      intro x hx
      rcases List.mem_append.mp hx with hx | hx
      · exact Or.inl hx
      · simp only [List.mem_singleton] at hx
        subst hx
        exact Or.inr (by rw [hq]; exact List.mem_cons_self _ _)

theorem processQueue_activeCount_cases (s : SvcState) :
    (processQueue s).activeCount = s.activeCount ∨
      ((processQueue s).activeCount = s.activeCount + 1 ∧ s.queue ≠ []) := by
  unfold processQueue
  split
  · exact Or.inl rfl
  · split
    · exact Or.inl rfl
    · rename_i t rest hq
      exact Or.inr ⟨rfl, by rw [hq]; simp⟩

theorem not_mem_eraseIdx_of_count_one (l : List Task) (i : Nat) (t : Task)
    (hget : l.get? i = some t) (hcount : l.count t = 1) : t ∉ l.eraseIdx i := by
  induction l generalizing i with
  | nil => simp at hget
  | cons e rest ih =>
    cases i with
    | zero =>
      simp only [List.get?_cons_zero, Option.some.injEq] at hget
      subst hget
      simp only [List.eraseIdx]
      have hcs : (e :: rest).count e = rest.count e + 1 := List.count_cons_self e rest
      have h0 : rest.count e = 0 := by omega
      exact List.count_eq_zero.mp h0
    | succ j =>
      simp only [List.get?_cons_succ] at hget
      simp only [List.eraseIdx, List.mem_cons]
      rintro (rfl | hmem)
      · have hmem' : t ∈ rest := List.get?_mem hget
        have hcs : (t :: rest).count t = rest.count t + 1 := List.count_cons_self t rest
        have hpos : 0 < rest.count t := List.count_pos_iff.mpr hmem'
        omega
      · by_cases he : e = t
        · subst he
          have hcs : (e :: rest).count e = rest.count e + 1 := List.count_cons_self e rest
          have h0 : rest.count e = 0 := by omega
          have hmem' : e ∈ rest := (List.eraseIdx_sublist rest j).subset hmem
          have hpos : 0 < rest.count e := List.count_pos_iff.mpr hmem'
          omega
        · have hne : t ≠ e := fun h => he h.symm
          have hcs : (e :: rest).count t = rest.count t := by
            simp [List.count_cons, hne]
          have h1 : rest.count t = 1 := by omega
          exact ih j hget h1 hmem

/-- Claim C5: a dispatched job whose extraction fails (timeout, decode
error, zero dimensions, process failure with the fallback failing too)
resolves as a normal completion with the empty result: exactly one callback
`("", 0)` is delivered, the empty result is cached under the task's key,
the key leaves the pending set, the `finally` decrements `activeCount`
(re-dispatching at most one queued task), and the failed task is never
re-queued or re-dispatched.  `completeJob` is a total function, so no error
crosses the `generate`/`processQueue` boundary in the model. -/
theorem thumb_C5 (s : SvcState) (i : Nat) (t : Task)
    (hrun : s.running.get? i = some t)
    (hpc : s.pending.count t.fileKey ≤ 1)
    (hrc : s.running.count t = 1)
    (hq : t ∉ s.queue) :
    (completeJob s i JobOutcome.failure).2 = [⟨t.fileKey, "", 0⟩] ∧
    mapGet ((completeJob s i JobOutcome.failure).1).cache t.fileKey = some ⟨"", 0⟩ ∧
    t.fileKey ∉ ((completeJob s i JobOutcome.failure).1).pending ∧
    t ∉ ((completeJob s i JobOutcome.failure).1).queue ∧
    t ∉ ((completeJob s i JobOutcome.failure).1).running ∧
    (s.queue = [] →
      ((completeJob s i JobOutcome.failure).1).activeCount = s.activeCount - 1) := by
  unfold completeJob
  rw [hrun]
  dsimp only
  refine ⟨rfl, ?_, ?_, ?_, ?_, ?_⟩
  · rw [processQueue_cache]
    show mapGet (cacheWrite s.cache t.fileKey ⟨"", 0⟩) t.fileKey = some ⟨"", 0⟩
    unfold cacheWrite
    dsimp only
    exact mapGet_mapSet_self _ _ _
  · rw [processQueue_pending]
    exact not_mem_setDelete_of_count_le_one _ _ hpc
  · intro hmem
    have h2 := processQueue_queue_sub _ t hmem
    exact hq h2
  · intro hmem
    have h2 := processQueue_running_sub _ t hmem
    rcases h2 with hmem2 | hmem2
    · exact not_mem_eraseIdx_of_count_one _ i t hrun hrc hmem2
    · exact hq hmem2
  · intro hqe
    rcases processQueue_activeCount_cases
        ⟨s.queue, s.activeCount - 1, s.running.eraseIdx i,
          cacheWrite s.cache t.fileKey ⟨"", 0⟩, setDelete s.pending t.fileKey⟩ with
      h | h
    · exact h
    · exact absurd hqe h.2

theorem thumb_C5_witness :
    (completeJob ⟨[], 1, [⟨"u", "k"⟩], [], ["k"]⟩ 0 JobOutcome.failure).2 =
      [⟨"k", "", 0⟩] ∧
    mapGet ((completeJob ⟨[], 1, [⟨"u", "k"⟩], [], ["k"]⟩ 0
        JobOutcome.failure).1).cache "k" = some ⟨"", 0⟩ ∧
    "k" ∉ ((completeJob ⟨[], 1, [⟨"u", "k"⟩], [], ["k"]⟩ 0
        JobOutcome.failure).1).pending ∧
    (⟨"u", "k"⟩ : Task) ∉ ((completeJob ⟨[], 1, [⟨"u", "k"⟩], [], ["k"]⟩ 0
        JobOutcome.failure).1).queue ∧
    (⟨"u", "k"⟩ : Task) ∉ ((completeJob ⟨[], 1, [⟨"u", "k"⟩], [], ["k"]⟩ 0
        JobOutcome.failure).1).running ∧
    ((⟨[], 1, [⟨"u", "k"⟩], [], ["k"]⟩ : SvcState).queue = [] →
      ((completeJob ⟨[], 1, [⟨"u", "k"⟩], [], ["k"]⟩ 0
        JobOutcome.failure).1).activeCount =
        (⟨[], 1, [⟨"u", "k"⟩], [], ["k"]⟩ : SvcState).activeCount - 1) :=
  thumb_C5 _ 0 ⟨"u", "k"⟩ (by decide) (by decide) (by decide) (by decide)

theorem completeJob_pending_sub (s : SvcState) (i : Nat) (oc : JobOutcome) :
    ((completeJob s i oc).1).pending ⊆ s.pending := by
  unfold completeJob
  split
  · exact fun x hx => hx
  · dsimp only
    intro x hx
    rw [processQueue_pending] at hx
    exact setDelete_subset _ _ hx

theorem generate_after_clear (s : SvcState) (url k : String) :
    (generate (clearCache s) url k).2 = [] ∧
    k ∈ ((generate (clearCache s) url k).1).pending ∧
    jobsFor ((generate (clearCache s) url k).1) k = jobsFor (clearCache s) k + 1 := by
  have hc : mapGet (clearCache s).cache k = none := rfl
  have hp : k ∉ (clearCache s).pending := by simp [clearCache]
  unfold generate
  rw [hc, if_neg hp]
  dsimp only
  refine ⟨rfl, ?_, ?_⟩
  · rw [processQueue_pending]
    show k ∈ setAdd (clearCache s).pending k
    exact mem_setAdd_self _ _
  · rw [jobsFor_processQueue, jobsFor_enqueue]
    simp

/-- Claim C7: `clearCache` empties the cache, the pending set and the queue
in one atomic step of the single-threaded model (in-flight jobs are
untouched); after a clear, a `generate` for a previously cached key emits
no cached callback and admits one fresh extraction job for that key; a
completion never re-adds pending entries (pending only shrinks, so no stale
pending state is resurrected); and a cache write left behind by an
in-flight job is harmlessly overwritten by any later write for the same
key. -/
theorem thumb_C7 :
    (∀ s, (clearCache s).cache = [] ∧ (clearCache s).pending = [] ∧
        (clearCache s).queue = [] ∧ (clearCache s).running = s.running ∧
        (clearCache s).activeCount = s.activeCount) ∧
    (∀ s url k r, mapGet s.cache k = some r →
        (generate (clearCache s) url k).2 = [] ∧
        k ∈ ((generate (clearCache s) url k).1).pending ∧
        jobsFor ((generate (clearCache s) url k).1) k = jobsFor (clearCache s) k + 1) ∧
    (∀ s i oc, ((completeJob s i oc).1).pending ⊆ s.pending) ∧
    (∀ c k v1 v2, mapGet (mapSet (mapSet c k v1) k v2) k = some v2) := by
  refine ⟨fun s => ⟨rfl, rfl, rfl, rfl, rfl⟩, ?_, completeJob_pending_sub, ?_⟩
  · intro s url k r hc
    exact generate_after_clear s url k
  · intro c k v1 v2
    exact mapGet_mapSet_self _ _ _

theorem thumb_C7_witness :
    (generate (clearCache ⟨[], 0, [], [("k", ⟨"d", 3⟩)], []⟩) "u" "k").2 = [] ∧
    "k" ∈ ((generate (clearCache ⟨[], 0, [], [("k", ⟨"d", 3⟩)], []⟩) "u" "k").1).pending ∧
    jobsFor ((generate (clearCache ⟨[], 0, [], [("k", ⟨"d", 3⟩)], []⟩) "u" "k").1) "k" =
      jobsFor (clearCache ⟨[], 0, [], [("k", ⟨"d", 3⟩)], []⟩) "k" + 1 :=
  thumb_C7.2.1 _ "u" "k" ⟨"d", 3⟩ (by decide)

/-! ### Extraction strategies

`createThumbnail(url, filePath?)` on the service selects between the
process (ffmpeg) strategy and the in-browser strategy.  The asynchronous
environment (media-element events, the IPC result, the child process) is
passed explicitly; promise-based creators that race a `setTimeout` against
media events are modelled by an explicit event list ordered by registration,
resolved by the earliest event time (the first-registered wins ties). -/

/-- The `ThumbnailResult` shape produced by `src/electron/ffmpeg.ts` as seen
through the IPC boundary: `ok`, optional `dataUrl`, optional numeric
`duration` (`none` models `undefined`). -/
structure FfmpegIpcResult where
  ok : Bool
  dataUrl : Option String
  duration : Option ℚ
deriving DecidableEq

/-- Outcome of `await window.electronAPI.createThumbnail(...)`: the call may
reject, or resolve with a possibly-`undefined` result. -/
inductive IpcOutcome where
  | rejects
  | resolves (r : Option FfmpegIpcResult)
deriving DecidableEq

/-- Environment of one `createThumbnail` job on the service.
`thumbnailGenerator` is the `THUMBNAIL_GENERATOR` constant, whose defining
constants-module variant is not part of the sources; it is therefore kept
as a parameter (the claims hold for every value).  `inlineResult` is the
outcome of `await createThumbnailInBrowser(url)` (`none` = that promise
rejects), and `metaDuration` the value resolved by the concurrently started
`getDurationFromMetadata(url)` probe. -/
structure ThumbEnv where
  thumbnailGenerator : String
  hasCreateThumbnailApi : Bool
  ipc : IpcOutcome
  metaDuration : ℚ
  inlineResult : Option ThumbResult
deriving DecidableEq

/-- Whether the ffmpeg IPC call is made at all: `createThumbnailWithFfmpeg`
returns early on `!filePath || !window.electronAPI?.createThumbnail`. -/
def ffmpegAttempted (env : ThumbEnv) (filePath : Option String) : Bool :=
  filePath.isSome && env.hasCreateThumbnailApi

/-- `createThumbnailWithFfmpeg(url, filePath?)` (ThumbnailService): `none`
models the `null` returns (capability/path absent, IPC rejection, `!ok`,
or falsy `dataUrl` — `undefined` or the empty string).  The delivered
duration is the IPC result's `duration` when it is a number, else the
value of the awaited metadata probe. -/
def createThumbnailWithFfmpeg (env : ThumbEnv) (filePath : Option String) :
    Option ThumbResult :=
  if filePath.isNone ∨ env.hasCreateThumbnailApi = false then none
  else
    match env.ipc with
    | IpcOutcome.rejects => none
    | IpcOutcome.resolves r =>
      let duration : ℚ :=
        match r with
        | some res =>
          match res.duration with
          | some d => d
          | none => env.metaDuration
        | none => env.metaDuration
      match r with
      | none => none
      | some res =>
        if res.ok = false ∨ res.dataUrl = none ∨ res.dataUrl = some "" then none
        else some ⟨res.dataUrl.getD "", duration⟩

/-- `createThumbnail(url, filePath?)` (ThumbnailService): try the ffmpeg
strategy when `THUMBNAIL_GENERATOR === 'ffmpeg'`, fall through to the
in-browser strategy when it yields `null`; `none` means the returned
promise rejects (only possible via the in-browser strategy). -/
def createThumbnail (env : ThumbEnv) (filePath : Option String) : Option ThumbResult :=
  if env.thumbnailGenerator = "ffmpeg" then
    match createThumbnailWithFfmpeg env filePath with
    | some r => some r
    | none => env.inlineResult
  else env.inlineResult

/-- Earliest event of a registration-ordered list (times in integer
milliseconds; first registered wins ties); `none` only for an empty list. -/
def firstEvent {α : Type} : List (ℤ × α) → Option (ℤ × α)
  | [] => none
  | e :: rest =>
    match firstEvent rest with
    | none => some e
    | some e2 => if e.1 ≤ e2.1 then some e else some e2

/-- The frame-selection heuristic of the in-browser strategy:
`const seekTime = Math.min(1.5, video.duration > 3 ? 1.5 : 0)`. -/
def seekTimeInBrowser (duration : ℚ) : ℚ :=
  min (3/2) (if 3 < duration then 3/2 else 0)

inductive InlineEv where
  | timeoutEv
  | seekedEv
  | errorEv
deriving DecidableEq

inductive InlineOutcome where
  | ok (r : ThumbResult)
  | err
deriving DecidableEq

/-- Resolution of one in-browser attempt: settle time (ms), outcome, and
whether `cleanup()` ran (timer cleared, handlers nulled, media element
released). -/
structure InlineRun where
  time : ℤ
  outcome : InlineOutcome
  cleanedUp : Bool
deriving DecidableEq

/-- Environment of one in-browser attempt: when `loadeddata`/`error` would
fire (ms, `none` = never), how long the seek takes after `currentTime` is
set (the handler sets it 100 ms after `loadeddata`), and the media facts
read in `onseeked`. -/
structure InlineEnv where
  loadedAt : Option ℤ
  errorAt : Option ℤ
  seekDelay : ℤ
  duration : ℚ
  videoWidth : Nat
  videoHeight : Nat
  ctxOk : Bool
  drawOk : Bool
  dataUrl : String
deriving DecidableEq

/-- Events racing inside `createThumbnailInBrowser`: the 10 s timer
(registered first), the seek completion (`loadeddata` + 100 ms delay +
seek), and the media error. -/
def inlineEvents (env : InlineEnv) : List (ℤ × InlineEv) :=
  [((10000 : ℤ), InlineEv.timeoutEv)] ++
    (match env.loadedAt with
     | some l => [(l + 100 + env.seekDelay, InlineEv.seekedEv)]
     | none => []) ++
    (match env.errorAt with
     | some t => [(t, InlineEv.errorEv)]
     | none => [])

/-- `createThumbnailInBrowser(url)` (ThumbnailService): the first event
settles the promise — timeout or `onerror` reject; `onseeked` rejects on
zero dimensions, missing 2d context or a throwing draw/encode, and
otherwise resolves with the canvas data URL and `video.duration`.  Every
settling path runs `cleanup()` first. -/
def createThumbnailInBrowser (env : InlineEnv) : InlineRun :=
  match firstEvent (inlineEvents env) with
  | none => ⟨0, InlineOutcome.err, false⟩
  | some (t, ev) =>
    match ev with
    | InlineEv.timeoutEv => ⟨t, InlineOutcome.err, true⟩
    | InlineEv.errorEv => ⟨t, InlineOutcome.err, true⟩
    | InlineEv.seekedEv =>
      if env.videoWidth = 0 ∨ env.videoHeight = 0 then ⟨t, InlineOutcome.err, true⟩
      else if env.ctxOk = false then ⟨t, InlineOutcome.err, true⟩
      else if env.drawOk = false then ⟨t, InlineOutcome.err, true⟩
      else ⟨t, InlineOutcome.ok ⟨env.dataUrl, env.duration⟩, true⟩

inductive ProbeEv where
  | timeoutEv
  | loadedEv
  | errorEv
deriving DecidableEq

/-- Environment of one metadata probe: when `loadedmetadata`/`error` would
fire (ms), and the decoded duration with its `isFinite` status. -/
structure ProbeEnv where
  loadedAt : Option ℤ
  errorAt : Option ℤ
  durationFinite : Bool
  duration : ℚ
deriving DecidableEq

/-- Resolution of the metadata probe: settle time (ms) and resolved value
(the probe never rejects — all three handlers call `resolve`). -/
structure ProbeRun where
  time : ℤ
  value : ℚ
deriving DecidableEq

/-- Events racing inside `getDurationFromMetadata`: the 5 s timer
(registered first), `onloadedmetadata`, `onerror`. -/
def probeEvents (env : ProbeEnv) : List (ℤ × ProbeEv) :=
  [((5000 : ℤ), ProbeEv.timeoutEv)] ++
    (match env.loadedAt with
     | some l => [(l, ProbeEv.loadedEv)]
     | none => []) ++
    (match env.errorAt with
     | some t => [(t, ProbeEv.errorEv)]
     | none => [])

/-- `getDurationFromMetadata(url)` (ThumbnailService): timeout resolves 0,
`onloadedmetadata` resolves `isFinite(video.duration) ? video.duration : 0`,
`onerror` resolves 0. -/
def getDurationFromMetadata (env : ProbeEnv) : ProbeRun :=
  match firstEvent (probeEvents env) with
  | none => ⟨0, 0⟩
  | some (t, ev) =>
    match ev with
    | ProbeEv.timeoutEv => ⟨t, 0⟩
    | ProbeEv.loadedEv => ⟨t, if env.durationFinite then env.duration else 0⟩
    | ProbeEv.errorEv => ⟨t, 0⟩

/-! ### `src/electron/ffmpeg.ts` -/

/-- `parseDuration(output)` over the pre-matched groups of
`/Duration:\s*(\d+):(\d+):(\d+(?:\.\d+)?)/` (`none` = no match; the
`Number(...)` conversions of matched digit groups are finite, so the
`isFinite` guards pass). -/
def parseDuration (m : Option (ℕ × ℕ × ℚ)) : Option ℚ :=
  match m with
  | none => none
  | some (h, mi, s) => some (h * 3600 + mi * 60 + s)

/-- The `-vf` filter chain built by `createThumbnail` in `ffmpeg.ts`:
always `select=eq(n\,0)` (capture frame index 0), plus a scale filter when
a width or height is requested. -/
def ffmpegFilters (width height : Option Int) : List String :=
  ["select=eq(n\\,0)"] ++
    (if width.isSome ∨ height.isSome then
      ["scale=" ++ toString (width.getD (-1)) ++ ":" ++ toString (height.getD (-1)) ++
        ":force_original_aspect_ratio=decrease"]
    else [])

/-- The full ffmpeg argument list built by `createThumbnail` in
`ffmpeg.ts`.  Note it takes no duration (or seek offset): the invocation is
independent of the probed media duration. -/
def ffmpegThumbArgs (inputPath finalOutputPath : String)
    (width height quality : Option Int) : List String :=
  ["-hide_banner", "-i", inputPath, "-frames:v", "1", "-vsync", "0",
   "-vf", String.intercalate "," (ffmpegFilters width height),
   "-q:v", toString (quality.getD 2), "-y", finalOutputPath]

/-- Environment of one spawned ffmpeg run: whether `spawn` throws
synchronously, the child's `error` event, the `close` event's exit code
(`none` = the child never closes), the matched `Duration:` groups on
stderr, and the output-file read. -/
structure FfmpegProcEnv where
  spawnThrows : Bool
  errorEventMsg : Option String
  closeCode : Option Int
  stderrMatch : Option (ℕ × ℕ × ℚ)
  readFileOk : Bool
  fileBase64 : String
deriving DecidableEq

/-- The promise body of `createThumbnail` in `ffmpeg.ts` (the
`new Promise(...)` around `spawn`): it settles only from a synchronous
spawn throw, the child's `error` event, or its `close` event — no timer is
registered, so `none` (the child neither errors nor closes) means the
promise never settles. -/
def ffmpegRunProcess (env : FfmpegProcEnv) : Option FfmpegIpcResult :=
  if env.spawnThrows then some ⟨false, none, none⟩
  else
    match env.errorEventMsg with
    | some _ => some ⟨false, none, none⟩
    | none =>
      match env.closeCode with
      | none => none
      | some code =>
        if code ≠ 0 then some ⟨false, none, none⟩
        else if env.readFileOk then
          some ⟨true, some ("data:image/jpeg;base64," ++ env.fileBase64),
            parseDuration env.stderrMatch⟩
        else some ⟨false, none, none⟩

/-- `createThumbnail` in `ffmpeg.ts` including its early `ok:false` returns
(missing input path, no ffmpeg binary, `ensureDir` failure) ahead of the
spawn promise. -/
def ffmpegMainCreateThumbnail (inputPath : String) (ffmpegAvailable ensureDirOk : Bool)
    (env : FfmpegProcEnv) : Option FfmpegIpcResult :=
  if inputPath = "" then some ⟨false, none, none⟩
  else if ffmpegAvailable = false then some ⟨false, none, none⟩
  else if ensureDirOk = false then some ⟨false, none, none⟩
  else ffmpegRunProcess env

example : createThumbnail ⟨"ffmpeg", true, IpcOutcome.rejects, 5, some ⟨"i", 9⟩⟩
    (some "p") = some ⟨"i", 9⟩ := by decide
example : getDurationFromMetadata ⟨none, none, true, 0⟩ = ⟨5000, 0⟩ := by decide
example : createThumbnailInBrowser ⟨some 200, none, 50, 42, 640, 360, true, true, "d"⟩ =
    ⟨350, InlineOutcome.ok ⟨"d", 42⟩, true⟩ := by decide

/-! ### Event-race lemmas -/

theorem firstEvent_cons_le {α : Type} (e : ℤ × α) (l : List (ℤ × α)) :
    ∃ w, firstEvent (e :: l) = some w ∧ w.1 ≤ e.1 := by
  cases hr : firstEvent l with
  | none => exact ⟨e, by simp [firstEvent, hr], le_refl _⟩
  | some e2 =>
    by_cases hle : e.1 ≤ e2.1
    · exact ⟨e, by simp [firstEvent, hr, hle], le_refl _⟩
    · exact ⟨e2, by simp [firstEvent, hr, hle], le_of_not_le hle⟩

theorem firstEvent_mem {α : Type} (l : List (ℤ × α)) (w : ℤ × α)
    (h : firstEvent l = some w) : w ∈ l := by
  induction l generalizing w with
  | nil => simp [firstEvent] at h
  | cons e rest ih =>
    cases hr : firstEvent rest with
    | none =>
      simp only [firstEvent, hr, Option.some.injEq] at h
      subst h
      exact List.mem_cons_self _ _
    | some w2 =>
      by_cases hle : e.1 ≤ w2.1
      · simp only [firstEvent, hr, hle, if_true, Option.some.injEq] at h
        subst h
        exact List.mem_cons_self _ _
      · simp only [firstEvent, hr, hle, if_false, Option.some.injEq] at h
        subst h
        exact List.mem_cons_of_mem _ (ih _ hr)

theorem firstEvent_head_of_le {α : Type} (e : ℤ × α) (l : List (ℤ × α))
    (h : ∀ x ∈ l, e.1 ≤ x.1) : firstEvent (e :: l) = some e := by
  cases hr : firstEvent l with
  | none => simp [firstEvent, hr]
  | some w => simp [firstEvent, hr, h w (firstEvent_mem l w hr)]

/-! ### C6: strategy selection and fallback -/

theorem withFfmpeg_guard (env : ThumbEnv) (fp : Option String)
    (h : fp = none ∨ env.hasCreateThumbnailApi = false) :
    createThumbnailWithFfmpeg env fp = none := by
  unfold createThumbnailWithFfmpeg
  rcases h with rfl | h
  · simp
  · simp [h]

/-- Claim C6: strategy selection and fallback — with no native path hint or
no process-extraction capability, the process strategy is never attempted
(no IPC call is made) and the job resolves purely via the in-browser
strategy; whenever the attempted process strategy yields `null` (IPC
rejection, `ok:false`, or missing output image), the job falls through to
the in-browser strategy; and the job rejects (empty result at the
scheduler) only if the last attempted strategy — the in-browser one —
fails.  Stated for every value of the `THUMBNAIL_GENERATOR` constant. -/
theorem thumb_C6 :
    (∀ (env : ThumbEnv) (fp : Option String),
        fp = none ∨ env.hasCreateThumbnailApi = false →
        ffmpegAttempted env fp = false ∧ createThumbnail env fp = env.inlineResult) ∧
    (∀ (env : ThumbEnv) (fp : Option String),
        createThumbnailWithFfmpeg env fp = none →
        createThumbnail env fp = env.inlineResult) ∧
    (∀ (env : ThumbEnv) (fp : Option String),
        createThumbnail env fp = none → env.inlineResult = none) := by
  have hfall : ∀ (env : ThumbEnv) (fp : Option String),
      createThumbnailWithFfmpeg env fp = none →
      createThumbnail env fp = env.inlineResult := by
    intro env fp h
    unfold createThumbnail
    split
    · rw [h]
    · rfl
  refine ⟨?_, hfall, ?_⟩
  · intro env fp h
    refine ⟨?_, hfall env fp (withFfmpeg_guard env fp h)⟩
    rcases h with rfl | h
    · rfl
    · simp [ffmpegAttempted, h]
  · intro env fp h
    unfold createThumbnail at h
    split at h
    · split at h
      · exact absurd h (by simp)
      · exact h
    · exact h

theorem thumb_C6_witness :
    (ffmpegAttempted ⟨"ffmpeg", false, IpcOutcome.rejects, 0, some ⟨"i", 1⟩⟩ (some "p") =
        false ∧
      createThumbnail ⟨"ffmpeg", false, IpcOutcome.rejects, 0, some ⟨"i", 1⟩⟩ (some "p") =
        (⟨"ffmpeg", false, IpcOutcome.rejects, 0, some ⟨"i", 1⟩⟩ : ThumbEnv).inlineResult) ∧
    createThumbnail ⟨"ffmpeg", true, IpcOutcome.resolves none, 0, some ⟨"i", 1⟩⟩
        (some "p") =
      (⟨"ffmpeg", true, IpcOutcome.resolves none, 0, some ⟨"i", 1⟩⟩ : ThumbEnv).inlineResult ∧
    (⟨"ffmpeg", true, IpcOutcome.rejects, 0, none⟩ : ThumbEnv).inlineResult = none :=
  ⟨thumb_C6.1 _ (some "p") (Or.inr rfl),
   thumb_C6.2.1 _ (some "p") (by decide),
   thumb_C6.2.2 ⟨"ffmpeg", true, IpcOutcome.rejects, 0, none⟩ (some "p") (by decide)⟩

/-! ### C8: frame-selection heuristic -/

/-- Counterexample to claim C8 as stated: for a probed duration of 10 s the
in-browser strategy seeks to 1.5 s, but the ffmpeg invocation takes no
duration at all — its filter chain always selects frame index 0
(`select=eq(n\,0)`) and it passes no `-ss` seek option — so the process
strategy captures timestamp 0 where the claim requires 1.5 s. -/
theorem thumb_C8_cex :
    seekTimeInBrowser 10 = 3/2 ∧ (3/2 : ℚ) ≠ 0 ∧
    ffmpegThumbArgs "in.mp4" "out.jpg" none (some 360) (some 2) =
      ["-hide_banner", "-i", "in.mp4", "-frames:v", "1", "-vsync", "0", "-vf",
       "select=eq(n\\,0),scale=-1:360:force_original_aspect_ratio=decrease",
       "-q:v", "2", "-y", "out.jpg"] ∧
    "-ss" ∉ ffmpegThumbArgs "in.mp4" "out.jpg" none (some 360) (some 2) := by
  refine ⟨?_, by norm_num, by decide, by decide⟩
  rw [seekTimeInBrowser, if_pos (by norm_num : (3 : ℚ) < 10)]
  exact min_self _

/-- Claim C8 (amended): the in-browser strategy applies the heuristic —
seek to 1.5 s when the probed duration exceeds 3 s, else 0 — but the
process strategy does not apply it: for every sizing option its filter
chain starts with `select=eq(n\,0)`, capturing frame index 0 (its argument
builder does not even take the media duration as an input), so the two
strategies pick the same frame only for durations ≤ 3 s. -/
theorem thumb_C8 :
    (∀ d : ℚ, seekTimeInBrowser d = if 3 < d then 3/2 else 0) ∧
    (∀ w h, (ffmpegFilters w h).head? = some "select=eq(n\\,0)") := by
  constructor
  · intro d
    rw [seekTimeInBrowser]
    by_cases hd : 3 < d
    · simp only [if_pos hd]
      exact min_self _
    · simp only [if_neg hd]
      exact min_eq_right (by norm_num)
  · intro w h
    rfl

/-! ### C9: timeout containment -/

theorem createThumbnailInBrowser_bounded (env : InlineEnv) :
    (createThumbnailInBrowser env).time ≤ 10000 ∧
    (createThumbnailInBrowser env).cleanedUp = true := by
  obtain ⟨w, hw, hle⟩ := firstEvent_cons_le ((10000 : ℤ), InlineEv.timeoutEv)
      ((match env.loadedAt with
        | some l => [(l + 100 + env.seekDelay, InlineEv.seekedEv)]
        | none => []) ++
       (match env.errorAt with
        | some t => [(t, InlineEv.errorEv)]
        | none => []))
  have hfe : firstEvent (inlineEvents env) = some w := hw
  unfold createThumbnailInBrowser
  rw [hfe]
  obtain ⟨t, ev⟩ := w
  cases ev with
  | timeoutEv => exact ⟨hle, rfl⟩
  | seekedEv =>
    dsimp only
    split
    · exact ⟨hle, rfl⟩
    · split
      · exact ⟨hle, rfl⟩
      · split
        · exact ⟨hle, rfl⟩
        · exact ⟨hle, rfl⟩
  | errorEv => exact ⟨hle, rfl⟩

theorem createThumbnailInBrowser_timeout (env : InlineEnv)
    (hl : ∀ l, env.loadedAt = some l → 10000 < l + 100 + env.seekDelay)
    (he : ∀ t, env.errorAt = some t → 10000 < t) :
    createThumbnailInBrowser env = ⟨10000, InlineOutcome.err, true⟩ := by
  have hfe : firstEvent (inlineEvents env) =
      some ((10000 : ℤ), InlineEv.timeoutEv) := by
    apply firstEvent_head_of_le
    intro x hx
    rcases List.mem_append.mp hx with hx | hx
    · cases hll : env.loadedAt with
      | none =>
        rw [hll] at hx
        simp at hx
      | some l =>
        rw [hll] at hx
        simp at hx
        subst hx
        exact le_of_lt (hl l hll)
    · cases het : env.errorAt with
      | none =>
        rw [het] at hx
        simp at hx
      | some t2 =>
        rw [het] at hx
        simp at hx
        subst hx
        exact le_of_lt (he t2 het)
  unfold createThumbnailInBrowser
  rw [hfe]

/-- The environment of a spawned ffmpeg child that neither errors nor
closes. -/
def hangEnv : FfmpegProcEnv := ⟨false, none, none, none, true, ""⟩

/-- Counterexample to claim C9 as stated: the process-extraction attempt is
not bounded by any timeout — the promise around `spawn` in `ffmpeg.ts`
registers no timer and settles only on the child's `error`/`close` events,
so with a child that neither errors nor closes the attempt never resolves
(modelled as `none`), contradicting ``every extraction attempt, under
either strategy, is bounded by a fixed timeout''. -/
theorem thumb_C9_cex :
    ffmpegMainCreateThumbnail "in.mp4" true true hangEnv = none := by decide

/-- Claim C9 (amended): the in-browser extraction attempt is bounded by its
10 s timeout — it settles within 10000 ms with resources released on every
path, and when no media event arrives in time it fails at exactly 10000 ms
with `cleanup()` run — but the process-extraction attempt has no timeout:
if the spawned child neither errors nor closes, its promise never
settles. -/
theorem thumb_C9 :
    (∀ env : InlineEnv, (createThumbnailInBrowser env).time ≤ 10000 ∧
        (createThumbnailInBrowser env).cleanedUp = true) ∧
    (∀ env : InlineEnv,
        (∀ l, env.loadedAt = some l → 10000 < l + 100 + env.seekDelay) →
        (∀ t, env.errorAt = some t → 10000 < t) →
        createThumbnailInBrowser env = ⟨10000, InlineOutcome.err, true⟩) ∧
    (∀ env : FfmpegProcEnv, env.spawnThrows = false → env.errorEventMsg = none →
        env.closeCode = none → ffmpegRunProcess env = none) :=
  ⟨createThumbnailInBrowser_bounded, createThumbnailInBrowser_timeout,
   fun env h1 h2 h3 => by simp [ffmpegRunProcess, h1, h2, h3]⟩

theorem thumb_C9_witness :
    ((createThumbnailInBrowser ⟨none, none, 0, 0, 0, 0, true, true, ""⟩).time ≤ 10000 ∧
      (createThumbnailInBrowser ⟨none, none, 0, 0, 0, 0, true, true, ""⟩).cleanedUp = true) ∧
    createThumbnailInBrowser ⟨none, none, 0, 0, 0, 0, true, true, ""⟩ =
      ⟨10000, InlineOutcome.err, true⟩ ∧
    ffmpegRunProcess hangEnv = none :=
  ⟨thumb_C9.1 _,
   thumb_C9.2.1 _ (by intro l h; simp at h) (by intro t h; simp at h),
   thumb_C9.2.2 hangEnv rfl rfl rfl⟩

/-! ### C10: duration fallback through the metadata probe -/

theorem getDurationFromMetadata_time_le (env : ProbeEnv) :
    (getDurationFromMetadata env).time ≤ 5000 := by
  obtain ⟨w, hw, hle⟩ := firstEvent_cons_le ((5000 : ℤ), ProbeEv.timeoutEv)
      ((match env.loadedAt with
        | some l => [(l, ProbeEv.loadedEv)]
        | none => []) ++
       (match env.errorAt with
        | some t => [(t, ProbeEv.errorEv)]
        | none => []))
  have hfe : firstEvent (probeEvents env) = some w := hw
  unfold getDurationFromMetadata
  rw [hfe]
  obtain ⟨t, ev⟩ := w
  cases ev with
  | timeoutEv => exact hle
  | loadedEv => exact hle
  | errorEv => exact hle

theorem getDurationFromMetadata_timeout (env : ProbeEnv)
    (hl : ∀ l, env.loadedAt = some l → 5000 ≤ l)
    (he : ∀ t, env.errorAt = some t → 5000 ≤ t) :
    getDurationFromMetadata env = ⟨5000, 0⟩ := by
  have hfe : firstEvent (probeEvents env) = some ((5000 : ℤ), ProbeEv.timeoutEv) := by
    apply firstEvent_head_of_le
    intro x hx
    rcases List.mem_append.mp hx with hx | hx
    · cases hll : env.loadedAt with
      | none =>
        rw [hll] at hx
        simp at hx
      | some l =>
        rw [hll] at hx
        simp at hx
        subst hx
        exact hl l hll
    · cases het : env.errorAt with
      | none =>
        rw [het] at hx
        simp at hx
      | some t2 =>
        rw [het] at hx
        simp at hx
        subst hx
        exact he t2 het
  unfold getDurationFromMetadata
  rw [hfe]

theorem getDurationFromMetadata_loaded (env : ProbeEnv) (l : ℤ)
    (hl : env.loadedAt = some l) (hlt : l < 5000)
    (he : ∀ t, env.errorAt = some t → l ≤ t) :
    getDurationFromMetadata env =
      ⟨l, if env.durationFinite then env.duration else 0⟩ := by
  have hfe : firstEvent (probeEvents env) = some (l, ProbeEv.loadedEv) := by
    unfold probeEvents
    rw [hl]
    cases het : env.errorAt with
    | none =>
      simp [firstEvent, show ¬(5000 : ℤ) ≤ l from not_le.mpr hlt]
    | some t2 =>
      simp [firstEvent, he t2 het, show ¬(5000 : ℤ) ≤ l from not_le.mpr hlt]
  unfold getDurationFromMetadata
  rw [hfe]

theorem getDurationFromMetadata_error (env : ProbeEnv) (t : ℤ)
    (ht : env.errorAt = some t) (hlt : t < 5000)
    (hl : ∀ l, env.loadedAt = some l → t < l) :
    getDurationFromMetadata env = ⟨t, 0⟩ := by
  have hfe : firstEvent (probeEvents env) = some (t, ProbeEv.errorEv) := by
    unfold probeEvents
    rw [ht]
    cases hll : env.loadedAt with
    | none =>
      simp [firstEvent, show ¬(5000 : ℤ) ≤ t from not_le.mpr hlt]
    | some l =>
      simp [firstEvent, show ¬l ≤ t from not_le.mpr (hl l hll),
        show ¬(5000 : ℤ) ≤ t from not_le.mpr hlt]
  unfold getDurationFromMetadata
  rw [hfe]

theorem withFfmpeg_meta_fallback (env : ThumbEnv) (fp : String)
    (res : FfmpegIpcResult) (u : String)
    (hipc : env.ipc = IpcOutcome.resolves (some res))
    (hapi : env.hasCreateThumbnailApi = true) (hdur : res.duration = none)
    (hok : res.ok = true) (hurl : res.dataUrl = some u) (hne : u ≠ "") :
    createThumbnailWithFfmpeg env (some fp) = some ⟨u, env.metaDuration⟩ := by
  simp [createThumbnailWithFfmpeg, hipc, hapi, hdur, hok, hurl, hne]

/-- The probe environment in which neither media event ever fires. -/
def probeTimeoutEnv : ProbeEnv := ⟨none, none, true, 0⟩

/-- A job environment in which the ffmpeg IPC succeeds with an image but no
numeric duration, and the concurrent metadata probe times out. -/
def c10Env : ThumbEnv :=
  ⟨"ffmpeg", true, IpcOutcome.resolves (some ⟨true, some "img", none⟩),
   (getDurationFromMetadata probeTimeoutEnv).value, none⟩

/-- Claim C10: the metadata probe never rejects and settles within its 5 s
timer — resolving the decoded duration when finite, 0 on decode error,
non-finite duration or timeout — and when the process strategy returns a
usable image whose `duration` is not a number, the delivered duration is
the probe's value (the probe is started before the IPC call is awaited);
in particular a process-strategy success can deliver a valid image together
with duration 0. -/
theorem thumb_C10 :
    (∀ env : ProbeEnv, (getDurationFromMetadata env).time ≤ 5000) ∧
    (∀ env : ProbeEnv, (∀ l, env.loadedAt = some l → 5000 ≤ l) →
        (∀ t, env.errorAt = some t → 5000 ≤ t) →
        getDurationFromMetadata env = ⟨5000, 0⟩) ∧
    (∀ env l, env.loadedAt = some l → l < 5000 →
        (∀ t, env.errorAt = some t → l ≤ t) →
        getDurationFromMetadata env =
          ⟨l, if env.durationFinite then env.duration else 0⟩) ∧
    (∀ env t, env.errorAt = some t → t < 5000 →
        (∀ l, env.loadedAt = some l → t < l) →
        getDurationFromMetadata env = ⟨t, 0⟩) ∧
    (∀ env fp res u, env.ipc = IpcOutcome.resolves (some res) →
        env.hasCreateThumbnailApi = true → res.duration = none → res.ok = true →
        res.dataUrl = some u → u ≠ "" →
        createThumbnailWithFfmpeg env (some fp) = some ⟨u, env.metaDuration⟩) ∧
    (createThumbnail c10Env (some "path") = some ⟨"img", 0⟩ ∧
      (getDurationFromMetadata probeTimeoutEnv).value = 0) :=
  ⟨getDurationFromMetadata_time_le, getDurationFromMetadata_timeout,
   getDurationFromMetadata_loaded, getDurationFromMetadata_error,
   withFfmpeg_meta_fallback, by decide, by decide⟩

theorem thumb_C10_witness :
    getDurationFromMetadata probeTimeoutEnv = ⟨5000, 0⟩ ∧
    getDurationFromMetadata ⟨some 300, some 400, true, 12⟩ = ⟨300, 12⟩ ∧
    getDurationFromMetadata ⟨none, some 200, true, 9⟩ = ⟨200, 0⟩ ∧
    createThumbnailWithFfmpeg c10Env (some "p") = some ⟨"img", c10Env.metaDuration⟩ :=
  ⟨thumb_C10.2.1 probeTimeoutEnv (by intro l h; simp [probeTimeoutEnv] at h)
     (by intro t h; simp [probeTimeoutEnv] at h),
   thumb_C10.2.2.1 ⟨some 300, some 400, true, 12⟩ 300 rfl (by decide)
     (by intro t h; injection h with h; subst h; decide),
   thumb_C10.2.2.2.1 ⟨none, some 200, true, 9⟩ 200 rfl (by decide)
     (by intro l h; simp at h),
   thumb_C10.2.2.2.2.1 c10Env "p" ⟨true, some "img", none⟩ "img" rfl rfl rfl rfl rfl
     (by decide)⟩

end ThumbnailHub
